import Mathlib

/-!
# Verification of the `sak` work-time record parser and period aggregator

This file is a shallow embedding, in Lean 4, of the core of the `sak`
repository: the `work` package (`pkg/work/record.go`) and the quarter
arithmetic of `cmd/sak/worktime.go`.

Modelling conventions:

* An instant (`time.Time` in a fixed-offset local zone) is an `Int`:
  the count of civil seconds since the Unix epoch in the local timeline.
  Every timestamp the program constructs is a whole number of seconds,
  so second granularity is faithful.  Daylight-saving transitions are out
  of scope (the model is a fixed-offset zone).
* A duration (`time.Duration`) is an `Int` count of nanoseconds, exactly
  as in Go; subtraction of instants is converted to nanoseconds where the
  code stores or divides durations.  The average in
  `CalculateAverageForRecords` uses Go's `/` on `int64`, which truncates
  toward zero: this is `Int.tdiv`.
* `time.Date(y, m, d, h, mi, s, 0, loc)` first normalizes the month into
  `[1, 12]` carrying into the year, then adds `(d-1)` days and the
  `h:mi:s` offset to the civil day number; `goTimeDate` below implements
  exactly that via the standard civil-from-date day count
  (`daysFromCivil`, agreeing with Go's calendar on all inputs).
* The composite `time.Date(t.Year(), t.Month(), t.Day(), h, mi, s, 0, loc)`
  applied to an arbitrary instant `t` equals "midnight of `t`'s civil day
  plus the `h:mi:s` offset"; since civil days are the `86400`-second
  blocks of the timeline, midnight of `t`'s day is `t / 86400 * 86400`
  (floor division).  This is `timeOnDay` below.
* Go strings are modelled as `List Char` (all relevant separators are
  ASCII).  `strings.Split(s, ":")` is `splitOnChar ':'`,
  `strings.Fields` is `goFields`, and `strconv.Atoi` is `goAtoi`
  (sign handling as in Go; the `int64` overflow bound is not modelled).
* Fallible functions return `Option` / `Except`.  File I/O and the CSV
  decoding of `encoding/csv` are abstracted: `ParseRecordsFromFile`
  receives the list of rows (each a list of fields) that `ReadAll`
  produced.
-/

/-! ## Units and constants (record.go lines 16-20) -/

def nsPerSec : Int := 1000000000

def secPerDay : Int := 86400

def afternoonStartHour : Int := 12

def earlyEndHour : Int := 17

def minWorkHours : Int := 9

/-! ## Civil-calendar arithmetic backing `time.Date` -/

/-- Midnight (00:00:00) of the civil day containing instant `t`:
the model of `time.Date(t.Year(), t.Month(), t.Day(), 0, 0, 0, 0, loc)`. -/
def dayStart (t : Int) : Int := t / secPerDay * secPerDay

/-- The model of `time.Date(t.Year(), t.Month(), t.Day(), h, mi, s, 0, loc)`:
midnight of `t`'s day plus the given time-of-day offset (which may be
out of range or negative; `time.Date` normalizes by plain carrying,
which is the same as this addition). -/
def timeOnDay (t : Int) (h mi s : Int) : Int := dayStart t + 3600 * h + 60 * mi + s

def isLeapYear (y : Int) : Bool := (y % 4 == 0 && y % 100 != 0) || y % 400 == 0

def daysInMonth (y m : Int) : Int :=
  if m = 2 then (if isLeapYear y then 29 else 28)
  else if m = 4 ∨ m = 6 ∨ m = 9 ∨ m = 11 then 30 else 31

/-- Civil day number (days since 1970-01-01) of year `y`, month `m ∈ [1,12]`,
day `d` (out-of-range `d` simply adds days, as in Go's `time.Date`).
Standard era-based civil calendar computation; all divisors are positive,
so `/` and `%` are floor division and nonnegative remainder. -/
def daysFromCivil (y m d : Int) : Int :=
  let yAdj : Int := if m ≤ 2 then y - 1 else y
  let era : Int := yAdj / 400
  let yoe : Int := yAdj - era * 400
  let mp : Int := (m + 9) % 12
  let doy : Int := (153 * mp + 2) / 5 + d - 1
  let doe : Int := yoe * 365 + yoe / 4 - yoe / 100 + doy
  era * 146097 + doe - 719468

/-- The model of `time.Date(y, mo, d, h, mi, s, 0, loc)` for arbitrary
arguments: Go normalizes the month into `[1,12]` with year carry and
adds everything else as plain day/second offsets. -/
def goTimeDate (y mo d h mi s : Int) : Int :=
  let yn : Int := y + (mo - 1) / 12
  let mn : Int := (mo - 1) % 12 + 1
  secPerDay * daysFromCivil yn mn d + 3600 * h + 60 * mi + s

/-! ## String helpers (`strings.Split`, `strings.Fields`, `strconv.Atoi`) -/

def chars (s : String) : List Char := s.data

/-- `strings.Split(s, sep)` for a one-character separator: Go splits on
every occurrence and keeps empty segments (`Split("", ":") = [""]`). -/
def splitOnChar (sep : Char) : List Char → List (List Char)
  | [] => [[]]
  | c :: rest =>
    if c = sep then [] :: splitOnChar sep rest
    else
      match splitOnChar sep rest with
      | [] => [[c]]
      | g :: gs => (c :: g) :: gs

/-- ASCII fragment of `unicode.IsSpace`; the inputs of interest
(`"2025-07-16 Wednesday"`) only ever contain these separators. -/
def isSpaceChar (c : Char) : Bool := c = ' ' || c = '\t' || c = '\n' || c = '\r'

/-- Worker for `goFields`: `cur` is the reversed field being built. -/
def goFieldsAux : List Char → List Char → List (List Char)
  | [], cur => if cur = [] then [] else [cur.reverse]
  | c :: rest, cur =>
    if isSpaceChar c then
      if cur = [] then goFieldsAux rest []
      else cur.reverse :: goFieldsAux rest []
    else goFieldsAux rest (c :: cur)

/-- `strings.Fields`: split around maximal runs of whitespace, dropping
empty fields. -/
def goFields (cs : List Char) : List (List Char) := goFieldsAux cs []

/-- Value of a digit string (caller has checked `Char.isDigit`). -/
def digitsVal (cs : List Char) : Nat := cs.foldl (fun n c => 10 * n + (c.toNat - 48)) 0

/-- A nonempty all-digit string, as the unsigned part of `strconv.Atoi`. -/
def parsePosDigits (cs : List Char) : Option Int :=
  if cs ≠ [] ∧ cs.all Char.isDigit then some (digitsVal cs) else none

/-- `strconv.Atoi`: optional single `+`/`-` sign followed by at least one
ASCII digit.  (The `int64` range check of the real `Atoi` is not
modelled; all claims concern values far below it.) -/
def goAtoi (cs : List Char) : Option Int :=
  match cs with
  | [] => none
  | c :: rest =>
    if c = '-' then (parsePosDigits rest).map (fun n => -n)
    else if c = '+' then parsePosDigits rest
    else parsePosDigits (c :: rest)

/-! ## The `work` package (record.go) -/

/-- `time.ParseInLocation("2006-01-02", tok, time.Local)`: exactly
`YYYY-MM-DD` with four/two/two digits, month in `[1,12]`, day within the
month; the result is midnight of that civil day. -/
def parseCivilDate (cs : List Char) : Option Int :=
  match cs with
  | [y1, y2, y3, y4, s1, m1, m2, s2, d1, d2] =>
    if s1 = '-' ∧ s2 = '-' ∧ ([y1, y2, y3, y4, m1, m2, d1, d2].all Char.isDigit) then
      let y : Int := digitsVal [y1, y2, y3, y4]
      let m : Int := digitsVal [m1, m2]
      let d : Int := digitsVal [d1, d2]
      if 1 ≤ m ∧ m ≤ 12 ∧ 1 ≤ d ∧ d ≤ daysInMonth y m then
        some (secPerDay * daysFromCivil y m d)
      else none
    else none
  | _ => none

/-- `parseTimeOnDate` (record.go lines 148-170): split on `":"`, require
exactly three components, `Atoi` each and build
`time.Date(date.Year(), date.Month(), date.Day(), hour, minute, second, 0, loc)`. -/
def parseTimeOnDate (date : Int) (timeStr : List Char) : Option Int :=
  match splitOnChar ':' timeStr with
  | [hs, ms, ss] =>
    match goAtoi hs, goAtoi ms, goAtoi ss with
    | some h, some mi, some s => some (timeOnDay date h mi s)
    | _, _, _ => none
  | _ => none

/-- `hasLeave` (record.go lines 76-83).  The third clause in Go is
`end.Sub(start).Hours() < minWorkHours` on `float64`; for second-granular
instants the rounding of `Duration.Hours()` never crosses the `9.0`
threshold, so it is equivalent to the exact comparison used here. -/
def hasLeave (start stop : Int) : Bool :=
  let afternoonStart := timeOnDay start afternoonStartHour 0 0
  let earlyEnd := timeOnDay stop earlyEndHour 0 0
  decide (afternoonStart < start) || decide (stop < earlyEnd) ||
    decide (stop - start < minWorkHours * 3600)

structure Record where
  Date : Int
  Start : Int
  End : Int
  Duration : Int
  Normal : Bool
deriving DecidableEq

/-- `parseSingleRecord` (record.go lines 86-128). -/
def parseSingleRecord (dateStr startStr endStr : List Char) : Option Record :=
  match goFields dateStr with
  | [] => none
  | tok :: _ =>
    match parseCivilDate tok with
    | none => none
    | some date =>
      match parseTimeOnDate date startStr with
      | none => none
      | some startTime =>
        match parseTimeOnDate date endStr with
        | none => none
        | some endTime0 =>
          let endTime := if endTime0 - startTime < 0 then endTime0 + 24 * 3600 else endTime0
          let duration := endTime - startTime
          some { Date := date, Start := startTime, End := endTime,
                 Duration := duration * nsPerSec,
                 Normal := !hasLeave startTime endTime }

inductive ParseErr where
  | tooFewRows : ParseErr
  | wrongColumns (row : Nat) (got : Nat) : ParseErr
  | badRecord (row : Nat) : ParseErr
deriving DecidableEq

/-- The data-row loop of `ParseRecordsFromFile` (record.go lines 51-66):
`i` is the 0-based index in the file of the row at the head of the list,
and errors report `i + 1`, the 1-based index within the file. -/
def parseRows : Nat → List (List (List Char)) → Except ParseErr (List Record)
  | _, [] => .ok []
  | i, row :: rest =>
    match row with
    | [a, b, c] =>
      match parseSingleRecord a b c with
      | none => .error (.badRecord (i + 1))
      | some r => (parseRows (i + 1) rest).map (fun rs => r :: rs)
    | _ => .error (.wrongColumns (i + 1) row.length)

/-- `ParseRecordsFromFile` (record.go lines 33-69), with the file read and
CSV decoding abstracted to the row list `ReadAll` produced. -/
def ParseRecordsFromFile (rows : List (List (List Char))) : Except ParseErr (List Record) :=
  if rows.length < 2 then .error .tooFewRows
  else
    match rows with
    | [] => .error .tooFewRows
    | _header :: dataRows => parseRows 1 dataRows

/-- Membership test of the selection loop (record.go lines 179-181):
`recordDate := time.Date(Y, M, D, 0, 0, 0, 0, loc)` compared inclusively
against the raw `start` and `end` arguments. -/
def recordInWindow (r : Record) (start stop : Int) : Bool :=
  let recordDate := dayStart r.Date
  decide (start ≤ recordDate) && decide (recordDate ≤ stop)

/-- The per-record contribution (record.go lines 186-192). -/
def durationForAverage (r : Record) : Int :=
  if r.Normal then r.Duration else minWorkHours * 3600 * nsPerSec

/-- `CalculateAverageForRecords` (record.go lines 174-205).  Go's
`totalDuration / time.Duration(count)` is `int64` division, truncating
toward zero: `Int.tdiv`. -/
def CalculateAverageForRecords (records : List Record) (start stop : Int) :
    Except String (Int × Int) :=
  let acc := records.foldl
    (fun (acc : Int × Int) r =>
      if recordInWindow r start stop then (acc.1 + durationForAverage r, acc.2 + 1) else acc)
    (0, 0)
  if acc.2 = 0 then .error "no work time data found for the specified period"
  else .ok (Int.tdiv acc.1 acc.2, acc.2)

/-! ## Quarter arithmetic (cmd/sak/worktime.go) -/

/-- `getQuarter` (worktime.go lines 294-297); Go `/` on `int` truncates
toward zero. -/
def getQuarter (month : Int) : Int := Int.tdiv (month - 1) 3 + 1

/-- `getQuarterRange` (worktime.go lines 300-317): start is the first day
of the quarter's first month, end is one second before the first day of
the following month.  A quarter outside `1..4` leaves both months at
Go's zero value `time.Month(0)`, as in the source's `switch` without a
default. -/
def getQuarterRange (year quarter : Int) : Int × Int :=
  let sm : Int :=
    if quarter = 1 then 1 else if quarter = 2 then 4
    else if quarter = 3 then 7 else if quarter = 4 then 10 else 0
  let em : Int :=
    if quarter = 1 then 3 else if quarter = 2 then 6
    else if quarter = 3 then 9 else if quarter = 4 then 12 else 0
  (goTimeDate year sm 1 0 0 0, goTimeDate year (em + 1) 1 0 0 0 - 1)

/-- The window computed by `calculateLastQuarterAverage` (worktime.go
lines 201-214), as a function of the reference instant's year and month. -/
def calculateLastQuarterWindow (nowYear nowMonth : Int) : Int × Int :=
  let currentQuarter := getQuarter nowMonth
  if currentQuarter = 1 then getQuarterRange (nowYear - 1) 4
  else getQuarterRange nowYear (currentQuarter - 1)

/-- `calculateLastQuarterAverage` (worktime.go lines 201-224), reduced to
its data content: the aggregation over the last-quarter window. -/
def calculateLastQuarterAverage (records : List Record) (nowYear nowMonth : Int) :
    Except String (Int × Int) :=
  let w := calculateLastQuarterWindow nowYear nowMonth
  CalculateAverageForRecords records w.1 w.2

-- sanity examples (model evaluation checks)
example : daysFromCivil 1970 1 1 = 0 := by decide
example : daysFromCivil 2025 7 16 = 20285 := by decide
example : goFields (chars "2025-07-16 Wednesday") = [chars "2025-07-16", chars "Wednesday"] := by decide
example : goAtoi (chars "-17") = some (-17) := by decide
example : goAtoi (chars "+09") = some 9 := by decide
example : goAtoi (chars "9:") = none := by decide
example : parseCivilDate (chars "2025-07-16") = some (20285 * 86400) := by decide
example : parseCivilDate (chars "2025-02-29") = none := by decide
example : parseCivilDate (chars "2024-02-29") = some (19782 * 86400) := by decide
example : parseTimeOnDate (20285 * 86400) (chars "25:30:00") = some (20285 * 86400 + 91800) := by decide

/-! ## Aggregation lemmas -/

deriving instance DecidableEq for Except

/-- The selection/accumulation loop of `CalculateAverageForRecords`
computes the sum of contributions and the count of the selected records. -/
theorem calcAverage_foldl (start stop : Int) (l : List Record) (t c : Int) :
    l.foldl (fun (acc : Int × Int) r =>
        if recordInWindow r start stop then (acc.1 + durationForAverage r, acc.2 + 1) else acc)
      (t, c) =
    (t + ((l.filter (fun r => recordInWindow r start stop)).map durationForAverage).sum,
     c + (l.filter (fun r => recordInWindow r start stop)).length) := by
  induction l generalizing t c with
  | nil => simp
  | cons r rs ih =>
    by_cases hr : recordInWindow r start stop
    · simp only [List.foldl_cons, hr, if_true, List.filter_cons, ih, List.map_cons,
        List.sum_cons, List.length_cons]
      refine Prod.ext ?_ ?_ <;> simp <;> ring
    · simp only [List.foldl_cons, hr, if_false, List.filter_cons, ih]
      simp [hr]

/-- Closed form of `CalculateAverageForRecords`: error on an empty
selection, otherwise the truncated average of the contributions and the
count of selected records. -/
theorem CalculateAverageForRecords_eq (records : List Record) (start stop : Int) :
    CalculateAverageForRecords records start stop =
      (if ((records.filter (fun r => recordInWindow r start stop)).length : Int) = 0 then
        .error "no work time data found for the specified period"
      else
        .ok (Int.tdiv
              ((records.filter (fun r => recordInWindow r start stop)).map durationForAverage).sum
              ((records.filter (fun r => recordInWindow r start stop)).length : Int),
             ((records.filter (fun r => recordInWindow r start stop)).length : Int))) := by
  have hfold := calcAverage_foldl start stop records 0 0
  simp only [CalculateAverageForRecords]
  rw [hfold]
  simp

/-- C1: for a non-empty selection, `CalculateAverageForRecords` returns
`(sum of contributions) tdiv count` and the count, where a record
contributes its `Duration` when `Normal` and the fixed 9 hours
(independent of its recorded duration) otherwise; `Int.tdiv` truncates
toward zero exactly like Go's `int64` division of durations. -/
theorem calculateAverage_policy (records : List Record) (start stop : Int)
    (h : records.filter (fun r => recordInWindow r start stop) ≠ []) :
    CalculateAverageForRecords records start stop =
      .ok
        (Int.tdiv
          ((records.filter (fun r => recordInWindow r start stop)).map
            (fun r => if r.Normal then r.Duration else 9 * 3600 * nsPerSec)).sum
          ((records.filter (fun r => recordInWindow r start stop)).length : Int),
         ((records.filter (fun r => recordInWindow r start stop)).length : Int)) := by
  have hlen : (records.filter (fun r => recordInWindow r start stop)).length ≠ 0 := by
    simpa [List.length_eq_zero] using h
  have hfun : durationForAverage =
      (fun r : Record => if r.Normal then r.Duration else 9 * 3600 * nsPerSec) := by
    funext r
    simp [durationForAverage, minWorkHours]
  rw [CalculateAverageForRecords_eq, hfun]
  have : ¬ (((records.filter (fun r => recordInWindow r start stop)).length : Int) = 0) := by
    exact_mod_cast hlen
  simp [this]

/-- Witness for C1, realizing the spec's leave-day example: a leave-day
record of actual duration 5h and a normal 9h day average to exactly 9h. -/
theorem calculateAverage_policy_witness :
    CalculateAverageForRecords
      [{ Date := 0, Start := 0, End := 18000, Duration := 5 * 3600 * nsPerSec, Normal := false },
       { Date := 86400, Start := 86400, End := 86400 + 32400,
         Duration := 9 * 3600 * nsPerSec, Normal := true }]
      0 86400 = .ok (9 * 3600 * nsPerSec, 2) := by
  rw [calculateAverage_policy _ 0 86400 (by decide)]
  decide

/-- C6: aggregation fails exactly when no record's day-truncated date lies
in the window (in particular on the empty record list), and a successful
result always has a positive count — so `(0, 0)` is never returned as a
success, and one in-window record suffices for success. -/
theorem calculateAverage_error_iff (records : List Record) (start stop : Int) :
    (CalculateAverageForRecords records start stop =
        .error "no work time data found for the specified period"
      ↔ records.filter (fun r => recordInWindow r start stop) = [])
    ∧ (∀ p : Int × Int, CalculateAverageForRecords records start stop = .ok p →
        0 < p.2 ∧ p ≠ (0, 0)) := by
  rw [CalculateAverageForRecords_eq]
  by_cases hlen : ((records.filter (fun r => recordInWindow r start stop)).length : Int) = 0
  · have hnil : records.filter (fun r => recordInWindow r start stop) = [] := by
      rw [← List.length_eq_zero]
      exact_mod_cast hlen
    simp [hlen, hnil]
  · have hpos : 0 < ((records.filter (fun r => recordInWindow r start stop)).length : Int) := by
      have : 0 ≤ ((records.filter (fun r => recordInWindow r start stop)).length : Int) :=
        Int.natCast_nonneg _
      omega
    constructor
    · simp only [hlen, if_false]
      constructor
      · intro hcontra
        exact absurd hcontra (by simp)
      · intro hcontra
        exact absurd (congrArg (fun l => (l.length : Int)) hcontra) (by simpa using hlen)
    · intro p hp
      simp only [hlen, if_false, Except.ok.injEq] at hp
      constructor
      · rw [← hp]
        exact hpos
      · intro hzero
        rw [← hp] at hzero
        have := congrArg Prod.snd hzero
        simp only at this
        omega

/-- Witness for C6: the empty record list over any window fails with the
no-data error, and a single in-window record yields a successful result
with count 1. -/
theorem calculateAverage_error_iff_witness :
    CalculateAverageForRecords [] 0 86400 =
      .error "no work time data found for the specified period"
    ∧ (0:Int) < (1:Int) ∧ ((0:Int), (1:Int)) ≠ ((0:Int), (0:Int)) := by
  refine ⟨(calculateAverage_error_iff [] 0 86400).1.mpr (by decide), ?_⟩
  exact (calculateAverage_error_iff
    [{ Date := 0, Start := 0, End := 0, Duration := 0, Normal := true }] 0 86400).2
    (0, 1) (by decide)

/-- Counterexample to C3 as stated: with a record dated 2025-07-16 and a
window whose `start` argument is 2025-07-16 06:00:00, the day-truncated
bounds would include the record, but the code compares against the raw
`start` and excludes it — the time-of-day of the `start` argument does
affect membership. -/
theorem windowMembership_cex :
    ¬ (recordInWindow
          { Date := 20285 * 86400, Start := 20285 * 86400, End := 20285 * 86400,
            Duration := 0, Normal := true }
          (20285 * 86400 + 21600) (20285 * 86400 + 172800) = true
        ↔ (dayStart (20285 * 86400 + 21600) ≤ dayStart (20285 * 86400 : Int)
            ∧ dayStart (20285 * 86400 : Int) ≤ dayStart (20285 * 86400 + 172800))) := by
  decide

/-- C3 amended: a record is included iff the midnight of its date is `>=`
the raw `start` argument and `<=` the raw `end` argument (both bounds
inclusive).  The time-of-day carried by the `end` argument never affects
membership, but the time-of-day carried by `start` can (it excludes
records dated on `start`'s own day, as the counterexample shows). -/
theorem windowMembership_amended (r : Record) (start stop : Int) :
    (recordInWindow r start stop = true ↔
      start ≤ dayStart r.Date ∧ dayStart r.Date ≤ stop)
    ∧ (∀ tod : Int, 0 ≤ tod → tod < secPerDay →
        recordInWindow r start (dayStart stop + tod) = recordInWindow r start (dayStart stop)) := by
  constructor
  · simp [recordInWindow]
  · intro tod h0 h1
    simp only [recordInWindow]
    have hiff : (dayStart r.Date ≤ dayStart stop + tod) ↔ (dayStart r.Date ≤ dayStart stop) := by
      simp only [dayStart, secPerDay] at *
      omega
    congr 1
    rw [decide_eq_decide]
    exact hiff

/-- Witness for C3 (amended): membership of a concrete record under an
`end` bound carrying time-of-day 23:59:59 equals membership under the
bare day-truncated bound. -/
theorem windowMembership_amended_witness :
    recordInWindow
        { Date := 20285 * 86400, Start := 0, End := 0, Duration := 0, Normal := true }
        (20285 * 86400) (dayStart (20285 * 86400) + 86399) =
      recordInWindow
        { Date := 20285 * 86400, Start := 0, End := 0, Duration := 0, Normal := true }
        (20285 * 86400) (dayStart (20285 * 86400)) :=
  (windowMembership_amended
    { Date := 20285 * 86400, Start := 0, End := 0, Duration := 0, Normal := true }
    (20285 * 86400) (20285 * 86400)).2 86399 (by decide) (by decide)

/-! ## Record-parsing lemmas -/

/-- `parseCivilDate` always returns the midnight of a civil day. -/
theorem parseCivilDate_dayStart (tok : List Char) (x : Int)
    (h : parseCivilDate tok = some x) : dayStart x = x := by
  unfold parseCivilDate at h
  split at h
  case h_2 => exact absurd h (by simp)
  case h_1 y1 y2 y3 y4 s1 m1 m2 s2 d1 d2 =>
    split at h
    · simp only [] at h
      split at h
      · have hx := Option.some.inj h
        rw [← hx]
        simp only [dayStart, secPerDay]
        omega
      · exact absurd h (by simp)
    · exact absurd h (by simp)

/-- Inversion of `parseSingleRecord`: the successfully parsed record is
built exactly as in record.go lines 86-128. -/
theorem parseSingleRecord_inv (dateStr startStr endStr : List Char) (r : Record)
    (hp : parseSingleRecord dateStr startStr endStr = some r) :
    ∃ tok rest st en0,
      goFields dateStr = tok :: rest ∧
      parseCivilDate tok = some r.Date ∧
      parseTimeOnDate r.Date startStr = some st ∧
      parseTimeOnDate r.Date endStr = some en0 ∧
      r.Start = st ∧
      r.End = (if en0 - st < 0 then en0 + 24 * 3600 else en0) ∧
      r.Duration = (r.End - r.Start) * nsPerSec ∧
      r.Normal = !hasLeave r.Start r.End := by
  unfold parseSingleRecord at hp
  split at hp
  case h_1 => exact absurd hp (by simp)
  case h_2 tok rest hgf =>
    split at hp
    case h_1 => exact absurd hp (by simp)
    case h_2 date hcd =>
      split at hp
      case h_1 => exact absurd hp (by simp)
      case h_2 st hst =>
        split at hp
        case h_1 => exact absurd hp (by simp)
        case h_2 en0 hen =>
          simp only [Option.some.injEq] at hp
          subst hp
          exact ⟨tok, rest, st, en0, hgf, hcd, hst, hen, rfl, rfl, rfl, rfl⟩

/-- C2 counterexample: date 2025-07-16 with start `"30:00:00"` and end
`"01:00:00"`: every component parses as an integer, the single 24-hour
overnight correction fires, yet the resulting record has `End` before
`Start` and a duration of -5h — so the correction does not always make
the duration non-negative. -/
theorem record_duration_cex :
    parseSingleRecord (chars "2025-07-16") (chars "30:00:00") (chars "01:00:00") =
      some { Date := 1752624000, Start := 1752732000, End := 1752714000,
             Duration := -18000000000000, Normal := false }
    ∧ (-18000000000000 : Int) < 0 :=
  ⟨by decide, by decide⟩

/-- C2 amended: for every successfully parsed record, `Duration` equals
`End - Start` (converted to nanoseconds); when the normalized end
precedes the start, 24 hours are added once, and the resulting duration
is non-negative whenever the raw gap `end - start` is at least -24 hours
— which covers every input whose time components lie in conventional
ranges, but not arbitrary out-of-range components. -/
theorem record_duration_amended (dateStr startStr endStr : List Char) (r : Record)
    (st en0 : Int)
    (hp : parseSingleRecord dateStr startStr endStr = some r)
    (hst : parseTimeOnDate r.Date startStr = some st)
    (hen : parseTimeOnDate r.Date endStr = some en0) :
    r.Duration = (r.End - r.Start) * nsPerSec
    ∧ (-(24 * 3600) ≤ en0 - st → 0 ≤ r.Duration) := by
  obtain ⟨tok, rest, st', en0', hgf, hcd, hst', hen', hStart, hEnd, hDur, hNormal⟩ :=
    parseSingleRecord_inv _ _ _ _ hp
  have hst2 : st' = st := Option.some.inj ((hst').symm.trans hst)
  have hen2 : en0' = en0 := Option.some.inj ((hen').symm.trans hen)
  subst hst2
  subst hen2
  refine ⟨hDur, ?_⟩
  intro hgap
  rw [hDur]
  have hends : 0 ≤ r.End - r.Start := by
    rw [hStart, hEnd]
    split <;> omega
  have hns : (0:Int) ≤ nsPerSec := by decide
  exact mul_nonneg hends hns

/-- Witness for C2 (amended): the spec's overnight example
`2025-07-16, 22:00:00 → 06:00:00` parses to an 8-hour record with
`Duration = (End - Start) * nsPerSec ≥ 0`. -/
theorem record_duration_amended_witness :
    (28800000000000 : Int) =
      ((1752732000 : Int) - 1752703200) * nsPerSec
    ∧ (0:Int) ≤ (28800000000000 : Int) := by
  have h := record_duration_amended (chars "2025-07-16") (chars "22:00:00") (chars "06:00:00")
    { Date := 1752624000, Start := 1752703200, End := 1752732000,
      Duration := 28800000000000, Normal := false }
    1752703200 1752645600 (by decide) (by decide) (by decide)
  exact ⟨h.1, h.2 (by decide)⟩

/-- C4: `hasLeave` is true iff the start is strictly after 12:00:00 of its
own day, or the end is strictly before 17:00:00 of its own day, or the
span is strictly under 9 hours; a start of exactly noon (with a
late-enough end and a long-enough span) does not trigger leave; and every
parsed record's `Normal` is the negation of `hasLeave` on its (corrected)
`Start`/`End`. -/
theorem hasLeave_spec (st en : Int) :
    (hasLeave st en = true ↔
      (dayStart st + 12 * 3600 < st ∨ en < dayStart en + 17 * 3600 ∨ en - st < 9 * 3600))
    ∧ (st = dayStart st + 12 * 3600 → dayStart en + 17 * 3600 ≤ en → 9 * 3600 ≤ en - st →
        hasLeave st en = false)
    ∧ (∀ dateStr startStr endStr r, parseSingleRecord dateStr startStr endStr = some r →
        r.Normal = !hasLeave r.Start r.End) := by
  have hiff : hasLeave st en = true ↔
      (dayStart st + 12 * 3600 < st ∨ en < dayStart en + 17 * 3600 ∨ en - st < 9 * 3600) := by
    simp only [hasLeave, timeOnDay, afternoonStartHour, earlyEndHour, minWorkHours,
      Bool.or_eq_true, decide_eq_true_eq]
    omega
  refine ⟨hiff, ?_, ?_⟩
  · intro h1 h2 h3
    rw [← Bool.not_eq_true, hiff]
    push_neg
    exact ⟨by omega, by omega, by omega⟩
  · intro dateStr startStr endStr r hp
    obtain ⟨_, _, _, _, _, _, _, _, _, _, _, hNormal⟩ := parseSingleRecord_inv _ _ _ _ hp
    exact hNormal

/-- Witness for C4: a day running exactly 12:00:00-21:00:00 (noon start,
9h span, end after 17:00) is not a leave day, and the parsed overnight
record `2025-07-16, 22:00:00 → 06:00:00` has
`Normal = !hasLeave Start End`. -/
theorem hasLeave_spec_witness :
    hasLeave 43200 75600 = false
    ∧ (false : Bool) = !hasLeave 1752703200 1752732000 := by
  constructor
  · exact (hasLeave_spec 43200 75600).2.1 (by decide) (by decide) (by decide)
  · exact (hasLeave_spec 0 0).2.2 (chars "2025-07-16") (chars "22:00:00") (chars "06:00:00")
      { Date := 1752624000, Start := 1752703200, End := 1752732000,
        Duration := 28800000000000, Normal := false }
      (by decide)

/-- C9: the `Date` field of every parsed record is exactly the midnight of
the `YYYY-MM-DD` token taken from the CSV date field — unaffected by time
rollover past midnight or by the overnight correction (which touch only
`Start`/`End`) — and window membership looks only at `Date`, never at
`Start` or `End`. -/
theorem record_date_invariant (dateStr startStr endStr : List Char) (r : Record)
    (hp : parseSingleRecord dateStr startStr endStr = some r) :
    (∃ tok rest, goFields dateStr = tok :: rest ∧ parseCivilDate tok = some r.Date)
    ∧ dayStart r.Date = r.Date
    ∧ (∀ s e d n start stop,
        recordInWindow { Date := r.Date, Start := s, End := e, Duration := d, Normal := n }
          start stop = recordInWindow r start stop) := by
  obtain ⟨tok, rest, st, en0, hgf, hcd, _, _, _, _, _, _⟩ := parseSingleRecord_inv _ _ _ _ hp
  refine ⟨⟨tok, rest, hgf, hcd⟩, parseCivilDate_dayStart _ _ hcd, ?_⟩
  intro s e d n start stop
  simp [recordInWindow]

/-- Witness for C9: the record parsed from
`"2025-07-16 Wednesday", "25:30:00", "02:00:00"` — whose start rolls past
midnight into July 17 and whose end receives the overnight correction —
still carries `Date` = midnight of 2025-07-16. -/
theorem record_date_invariant_witness :
    dayStart 1752624000 = 1752624000 := by
  have h := record_date_invariant (chars "2025-07-16 Wednesday") (chars "25:30:00")
    (chars "02:00:00")
    { Date := 1752624000, Start := 1752715800, End := 1752717600,
      Duration := 1800000000000, Normal := false }
    (by decide)
  exact h.2.1


/-! ## Time-string splitting lemmas -/

/-- One-step unfolding of `splitOnChar` on a cons. -/
theorem splitOnChar_cons (sep c : Char) (rest : List Char) :
    splitOnChar sep (c :: rest) =
      if c = sep then [] :: splitOnChar sep rest
      else
        match splitOnChar sep rest with
        | [] => [[c]]
        | g :: gs => (c :: g) :: gs := rfl

/-- Splitting a separator-free string yields the single segment. -/
theorem splitOnChar_sepFree (sep : Char) (xs : List Char) (h : ∀ c ∈ xs, c ≠ sep) :
    splitOnChar sep xs = [xs] := by
  induction xs with
  | nil => rfl
  | cons c cs ih =>
    have hc : ¬ (c = sep) := h c (by simp)
    have hrest : splitOnChar sep cs = [cs] := ih (fun x hx => h x (by simp [hx]))
    rw [splitOnChar_cons, if_neg hc, hrest]

/-- Splitting peels off a separator-free prefix before the first
separator. -/
theorem splitOnChar_append (sep : Char) (xs ys : List Char) (h : ∀ c ∈ xs, c ≠ sep) :
    splitOnChar sep (xs ++ (sep :: ys)) = xs :: splitOnChar sep ys := by
  induction xs with
  | nil =>
    rw [List.nil_append, splitOnChar_cons, if_pos rfl]
  | cons c cs ih =>
    have hc : ¬ (c = sep) := h c (by simp)
    have hrest := ih (fun x hx => h x (by simp [hx]))
    rw [List.cons_append, splitOnChar_cons, if_neg hc, hrest]

/-- A string accepted by the digit parser consists of ASCII digits. -/
theorem parsePosDigits_isDigit (cs : List Char) (n : Int)
    (h : parsePosDigits cs = some n) : ∀ c ∈ cs, c.isDigit = true := by
  unfold parsePosDigits at h
  split at h
  · next hcond => exact fun c hc => List.all_eq_true.mp hcond.2 c hc
  · exact absurd h (by simp)

/-- No character of a string accepted by `goAtoi` is a colon. -/
theorem goAtoi_no_colon (cs : List Char) (n : Int) (h : goAtoi cs = some n) :
    ∀ c ∈ cs, c ≠ ':' := by
  have hdig : ∀ (ds : List Char) (m : Int), parsePosDigits ds = some m →
      ∀ c ∈ ds, c ≠ ':' := by
    intro ds m hm c hc hcontra
    have := parsePosDigits_isDigit ds m hm c hc
    subst hcontra
    exact absurd this (by decide)
  intro x hx
  cases cs with
  | nil => exact absurd h (by simp [goAtoi])
  | cons c rest =>
    simp only [goAtoi] at h
    by_cases h1 : c = '-'
    · rw [if_pos h1] at h
      obtain ⟨m, hm, -⟩ := Option.map_eq_some'.mp h
      rcases List.mem_cons.mp hx with hx1 | hx2
      · rw [hx1, h1]
        decide
      · exact hdig rest m hm x hx2
    · rw [if_neg h1] at h
      by_cases h2 : c = '+'
      · rw [if_pos h2] at h
        rcases List.mem_cons.mp hx with hx1 | hx2
        · rw [hx1, h2]
          decide
        · exact hdig rest n h x hx2
      · rw [if_neg h2] at h
        exact hdig (c :: rest) n h x hx

/-- Splitting behaviour of `parseTimeOnDate` on a three-component time
string whose components `Atoi`-parse: the result is midnight of `date`'s
day plus the component offsets. -/
theorem parseTimeOnDate_split (d : Int) (hs ms ss : List Char) (H M S : Int)
    (h1 : goAtoi hs = some H) (h2 : goAtoi ms = some M) (h3 : goAtoi ss = some S) :
    parseTimeOnDate d (hs ++ (':' :: (ms ++ (':' :: ss)))) =
      some (dayStart d + 3600 * H + 60 * M + S) := by
  have e1 : splitOnChar ':' (hs ++ (':' :: (ms ++ (':' :: ss)))) =
      hs :: splitOnChar ':' (ms ++ (':' :: ss)) :=
    splitOnChar_append ':' hs (ms ++ (':' :: ss)) (goAtoi_no_colon hs H h1)
  have e2 : splitOnChar ':' (ms ++ (':' :: ss)) = ms :: splitOnChar ':' ss :=
    splitOnChar_append ':' ms ss (goAtoi_no_colon ms M h2)
  have e3 : splitOnChar ':' ss = [ss] :=
    splitOnChar_sepFree ':' ss (goAtoi_no_colon ss S h3)
  unfold parseTimeOnDate
  rw [e1, e2, e3]
  simp only [h1, h2, h3, timeOnDay]

/-- C5: for every date and every time string made of exactly three
colon-separated integer components `H:M:S` (components not restricted to
conventional ranges), `parseTimeOnDate` returns midnight of the date plus
`H` hours, `M` minutes and `S` seconds — component overflow carries into
the next-larger unit exactly as standard duration addition. -/
theorem parseTimeOnDate_rollover (d : Int) (hs ms ss : List Char) (H M S : Int)
    (hd : dayStart d = d)
    (h1 : goAtoi hs = some H) (h2 : goAtoi ms = some M) (h3 : goAtoi ss = some S) :
    parseTimeOnDate d (hs ++ (':' :: (ms ++ (':' :: ss)))) =
      some (d + 3600 * H + 60 * M + S) := by
  rw [parseTimeOnDate_split d hs ms ss H M S h1 h2 h3, hd]

/-- Witness for C5, realizing the spec's examples: on date 2025-07-16,
`"25:30:00"` lands at 01:30:00 of 2025-07-17, and `"09:70:00"` lands at
10:10:00 of 2025-07-16. -/
theorem parseTimeOnDate_rollover_witness :
    parseTimeOnDate 1752624000 (chars "25:30:00") = some 1752715800
    ∧ parseTimeOnDate 1752624000 (chars "09:70:00") = some 1752660600 := by
  constructor
  · have hceq : chars "25:30:00" = chars "25" ++ (':' :: (chars "30" ++ (':' :: chars "00"))) := by
      decide
    have h := parseTimeOnDate_rollover 1752624000 (chars "25") (chars "30") (chars "00")
      25 30 0 (by decide) (by decide) (by decide) (by decide)
    rw [hceq, h]
    norm_num
  · have hceq : chars "09:70:00" = chars "09" ++ (':' :: (chars "70" ++ (':' :: chars "00"))) := by
      decide
    have h := parseTimeOnDate_rollover 1752624000 (chars "09") (chars "70") (chars "00")
      9 70 0 (by decide) (by decide) (by decide) (by decide)
    rw [hceq, h]
    norm_num

/-- C10: `parseTimeOnDate` accepts any components that parse as Go
integers — including `-`- and `+`-prefixed ones — never enforcing
non-negativity; a negative component is normalized backwards by the same
calendar arithmetic, so hour `-1` on date `d` yields 23:00:00 of the day
before `d`. -/
theorem parseTimeOnDate_signed (d : Int) :
    (∀ hs ms ss H M S, goAtoi hs = some H → goAtoi ms = some M → goAtoi ss = some S →
      parseTimeOnDate d (hs ++ (':' :: (ms ++ (':' :: ss)))) =
        some (dayStart d + 3600 * H + 60 * M + S))
    ∧ goAtoi (chars "-1") = some (-1)
    ∧ goAtoi (chars "+07") = some 7
    ∧ (dayStart d = d →
        parseTimeOnDate d (chars "-1:00:00") = some ((d - secPerDay) + 23 * 3600)) := by
  refine ⟨fun hs ms ss H M S h1 h2 h3 => parseTimeOnDate_split d hs ms ss H M S h1 h2 h3,
    by decide, by decide, ?_⟩
  intro hd
  have hceq : chars "-1:00:00" = chars "-1" ++ (':' :: (chars "00" ++ (':' :: chars "00"))) := by
    decide
  have h := parseTimeOnDate_split d (chars "-1") (chars "00") (chars "00")
    (-1) 0 0 (by decide) (by decide) (by decide)
  rw [hceq, h, hd]
  simp only [secPerDay, Option.some.injEq]
  omega

/-- Witness for C10: on date 2025-07-16, `"-1:00:00"` parses to 23:00:00
of 2025-07-15. -/
theorem parseTimeOnDate_signed_witness :
    parseTimeOnDate 1752624000 (chars "-1:00:00") = some 1752620400 := by
  have h := (parseTimeOnDate_signed 1752624000).2.2.2 (by decide)
  rw [h]
  decide

/-! ## Bulk-parse lemmas -/

/-- A data row is parseable: exactly three fields accepted by
`parseSingleRecord`. -/
def rowOk (row : List (List Char)) : Bool :=
  match row with
  | [a, b, c] => (parseSingleRecord a b c).isSome
  | _ => false

/-- One-step unfolding of `parseRows` on a three-field row. -/
theorem parseRows_cons3 (i : Nat) (a b c : List Char) (rest : List (List (List Char))) :
    parseRows i ([a, b, c] :: rest) =
      match parseSingleRecord a b c with
      | none => .error (.badRecord (i + 1))
      | some r => (parseRows (i + 1) rest).map (fun rs => r :: rs) := rfl

/-- The row loop succeeds exactly when every remaining row is parseable. -/
theorem parseRows_ok_iff (rows : List (List (List Char))) :
    ∀ i : Nat, (∃ rs, parseRows i rows = .ok rs) ↔ ∀ row ∈ rows, rowOk row = true := by
  induction rows with
  | nil =>
    intro i
    simp [parseRows]
  | cons row rest ih =>
    intro i
    constructor
    · rintro ⟨rs, hrs⟩ r hr
      unfold parseRows at hrs
      split at hrs
      case h_2 => exact absurd hrs (by simp)
      case h_1 a b c =>
        split at hrs
        case h_1 => exact absurd hrs (by simp)
        case h_2 rec hrec =>
          cases hrest : parseRows (i + 1) rest with
          | error e =>
            rw [hrest] at hrs
            exact absurd hrs (by simp [Except.map])
          | ok rs' =>
            rcases List.mem_cons.mp hr with h1 | h2
            · subst h1
              simp [rowOk, hrec]
            · exact (ih (i + 1)).mp ⟨rs', hrest⟩ r h2
    · intro hall
      have hrow := hall row (by simp)
      match row, hrow with
      | [a, b, c], hrow =>
        rw [rowOk] at hrow
        obtain ⟨rec, hrec⟩ := Option.isSome_iff_exists.mp hrow
        obtain ⟨rs', hrs'⟩ := (ih (i + 1)).mpr (fun r hr => hall r (by simp [hr]))
        refine ⟨rec :: rs', ?_⟩
        rw [parseRows_cons3]
        simp only [hrec]
        rw [hrs']
        rfl

/-- A successful row loop returns one record per row. -/
theorem parseRows_ok_length (rows : List (List (List Char))) :
    ∀ (i : Nat) (rs : List Record), parseRows i rows = .ok rs → rs.length = rows.length := by
  induction rows with
  | nil =>
    intro i rs h
    simp only [parseRows, Except.ok.injEq] at h
    simp [← h]
  | cons row rest ih =>
    intro i rs h
    unfold parseRows at h
    split at h
    case h_2 => exact absurd h (by simp)
    case h_1 a b c =>
      split at h
      case h_1 => exact absurd h (by simp)
      case h_2 rec hrec =>
        cases hrest : parseRows (i + 1) rest with
        | error e =>
          rw [hrest] at h
          exact absurd h (by simp [Except.map])
        | ok rs' =>
          rw [hrest] at h
          simp only [Except.map, Except.ok.injEq] at h
          subst h
          simp [ih (i + 1) rs' hrest]

/-- A wrong-column error from the row loop points (via its reported
1-based file index) at a row that indeed does not have three fields. -/
theorem parseRows_error_wrongColumns (rows : List (List (List Char))) :
    ∀ i k n, parseRows i rows = .error (.wrongColumns k n) →
      i + 1 ≤ k ∧ ∃ row, rows[k - i - 1]? = some row ∧ row.length = n ∧ n ≠ 3 := by
  induction rows with
  | nil =>
    intro i k n h
    simp [parseRows] at h
  | cons row rest ih =>
    intro i k n h
    unfold parseRows at h
    split at h
    case h_1 a b c =>
      split at h
      case h_1 => simp at h
      case h_2 rec hrec =>
        cases hrest : parseRows (i + 1) rest with
        | ok rs' =>
          rw [hrest] at h
          exact absurd h (by simp [Except.map])
        | error e =>
          rw [hrest] at h
          simp only [Except.map, Except.error.injEq] at h
          subst h
          obtain ⟨hk, row', hrow', hlen, hne⟩ := ih (i + 1) k n hrest
          refine ⟨by omega, row', ?_, hlen, hne⟩
          have hidx : k - i - 1 = (k - (i + 1) - 1) + 1 := by omega
          rw [hidx]
          simpa using hrow'
    case h_2 =>
      rename_i hshape
      simp only [Except.error.injEq, ParseErr.wrongColumns.injEq] at h
      obtain ⟨hk, hn⟩ := h
      have hlen3 : row.length ≠ 3 := by
        intro hl
        rcases row with _ | ⟨a, _ | ⟨b, _ | ⟨c, tail⟩⟩⟩
        · simp at hl
        · simp at hl
        · simp at hl
        · have htail : tail = [] := by
            simpa using hl
          subst htail
          exact hshape a b c rfl
      refine ⟨by omega, row, ?_, by omega, by omega⟩
      have hidx : k - i - 1 = 0 := by omega
      rw [hidx]
      simp

/-- A bad-record error from the row loop points (via its reported 1-based
file index) at a three-field row that `parseSingleRecord` rejects. -/
theorem parseRows_error_badRecord (rows : List (List (List Char))) :
    ∀ i k, parseRows i rows = .error (.badRecord k) →
      i + 1 ≤ k ∧ ∃ a b c, rows[k - i - 1]? = some [a, b, c]
        ∧ parseSingleRecord a b c = none := by
  induction rows with
  | nil =>
    intro i k h
    simp [parseRows] at h
  | cons row rest ih =>
    intro i k h
    unfold parseRows at h
    split at h
    case h_2 => simp at h
    case h_1 a b c =>
      split at h
      case h_1 hnone =>
        simp only [Except.error.injEq, ParseErr.badRecord.injEq] at h
        refine ⟨by omega, a, b, c, ?_, hnone⟩
        have hidx : k - i - 1 = 0 := by omega
        rw [hidx]
        simp
      case h_2 rec hrec =>
        cases hrest : parseRows (i + 1) rest with
        | ok rs' =>
          rw [hrest] at h
          exact absurd h (by simp [Except.map])
        | error e =>
          rw [hrest] at h
          simp only [Except.map, Except.error.injEq] at h
          subst h
          obtain ⟨hk, a', b', c', habc, hnone⟩ := ih (i + 1) k hrest
          refine ⟨by omega, a', b', c', ?_, hnone⟩
          have hidx : k - i - 1 = (k - (i + 1) - 1) + 1 := by omega
          rw [hidx]
          simpa using habc

/-- C7: `ParseRecordsFromFile` succeeds iff the source has at least two
rows (header plus data) and every data row has exactly three columns and
parses; success yields exactly one record per data row (never a partial
list, since any failure aborts the whole operation); a wrong-column or
bad-record error reports the 1-based file index of a row that indeed
fails that way; and fewer than two rows always yields the row-count
error. -/
theorem parseRecordsFromFile_spec (rows : List (List (List Char))) :
    ((∃ rs, ParseRecordsFromFile rows = .ok rs) ↔
      (2 ≤ rows.length ∧ ∀ row ∈ rows.drop 1, rowOk row = true))
    ∧ (∀ rs, ParseRecordsFromFile rows = .ok rs → rs.length = rows.length - 1)
    ∧ (∀ k n, ParseRecordsFromFile rows = .error (.wrongColumns k n) →
        2 ≤ k ∧ ∃ row, rows[k - 1]? = some row ∧ row.length = n ∧ n ≠ 3)
    ∧ (∀ k, ParseRecordsFromFile rows = .error (.badRecord k) →
        2 ≤ k ∧ ∃ a b c, rows[k - 1]? = some [a, b, c] ∧ parseSingleRecord a b c = none)
    ∧ (rows.length < 2 → ParseRecordsFromFile rows = .error .tooFewRows) := by
  by_cases hlen : rows.length < 2
  · have herr : ParseRecordsFromFile rows = .error .tooFewRows := by
      simp [ParseRecordsFromFile, hlen]
    refine ⟨?_, ?_, ?_, ?_, fun _ => herr⟩
    · rw [herr]
      constructor
      · rintro ⟨rs, hrs⟩
        simp at hrs
      · rintro ⟨h2, -⟩
        omega
    · intro rs h
      rw [herr] at h
      exact absurd h (by simp)
    · intro k n h
      rw [herr] at h
      simp at h
    · intro k h
      rw [herr] at h
      simp at h
  · cases rows with
    | nil => simp at hlen
    | cons header dataRows =>
      have heq : ParseRecordsFromFile (header :: dataRows) = parseRows 1 dataRows := by
        rw [ParseRecordsFromFile.eq_def, if_neg hlen]
      have hlen2 : 2 ≤ (header :: dataRows).length := by omega
      have hlen' : ¬ (header :: dataRows).length < 2 := hlen
      refine ⟨?_, ?_, ?_, ?_, fun hcontra => absurd hcontra hlen'⟩
      · rw [heq]
        simp only [List.drop_one, List.tail_cons]
        rw [parseRows_ok_iff dataRows 1]
        exact ⟨fun h => ⟨hlen2, h⟩, fun h => h.2⟩
      · intro rs h
        rw [heq] at h
        have := parseRows_ok_length dataRows 1 rs h
        simp [this]
      · intro k n h
        rw [heq] at h
        obtain ⟨hk, row', hrow', hl, hn⟩ := parseRows_error_wrongColumns dataRows 1 k n h
        refine ⟨by omega, row', ?_, hl, hn⟩
        have hidx : k - 1 = (k - 1 - 1) + 1 := by omega
        rw [hidx]
        simpa using hrow'
      · intro k h
        rw [heq] at h
        obtain ⟨hk, a, b, c, habc, hnone⟩ := parseRows_error_badRecord dataRows 1 k h
        refine ⟨by omega, a, b, c, ?_, hnone⟩
        have hidx : k - 1 = (k - 1 - 1) + 1 := by omega
        rw [hidx]
        simpa using habc

/-- Witness for C7: the empty source (fewer than two rows) fails with the
row-count error. -/
theorem parseRecordsFromFile_spec_witness :
    ParseRecordsFromFile [] = .error .tooFewRows :=
  (parseRecordsFromFile_spec []).2.2.2.2 (by decide)

/-! ## Quarter-boundary lemmas -/

theorem daysFromCivil_apr (y : Int) : daysFromCivil y 4 1 = daysFromCivil y 3 31 + 1 := by
  simp only [daysFromCivil]
  norm_num
  ring

theorem daysFromCivil_jul (y : Int) : daysFromCivil y 7 1 = daysFromCivil y 6 30 + 1 := by
  simp only [daysFromCivil]
  norm_num
  ring

theorem daysFromCivil_oct (y : Int) : daysFromCivil y 10 1 = daysFromCivil y 9 30 + 1 := by
  simp only [daysFromCivil]
  norm_num
  ring

theorem daysFromCivil_jan (y : Int) : daysFromCivil (y + 1) 1 1 = daysFromCivil y 12 31 + 1 := by
  simp only [daysFromCivil]
  norm_num
  ring

/-- Q1 runs from January 1st to March 31st, 23:59:59. -/
theorem getQuarterRange_eq1 (y : Int) :
    getQuarterRange y 1 = (goTimeDate y 1 1 0 0 0, goTimeDate y 3 (daysInMonth y 3) 23 59 59) := by
  have hd : daysInMonth y 3 = 31 := by norm_num [daysInMonth]
  rw [hd]
  simp only [getQuarterRange, goTimeDate, secPerDay]
  norm_num
  rw [daysFromCivil_apr]
  ring

/-- Q2 runs from April 1st to June 30th, 23:59:59. -/
theorem getQuarterRange_eq2 (y : Int) :
    getQuarterRange y 2 = (goTimeDate y 4 1 0 0 0, goTimeDate y 6 (daysInMonth y 6) 23 59 59) := by
  have hd : daysInMonth y 6 = 30 := by norm_num [daysInMonth]
  rw [hd]
  simp only [getQuarterRange, goTimeDate, secPerDay]
  norm_num
  rw [daysFromCivil_jul]
  ring

/-- Q3 runs from July 1st to September 30th, 23:59:59. -/
theorem getQuarterRange_eq3 (y : Int) :
    getQuarterRange y 3 = (goTimeDate y 7 1 0 0 0, goTimeDate y 9 (daysInMonth y 9) 23 59 59) := by
  have hd : daysInMonth y 9 = 30 := by norm_num [daysInMonth]
  rw [hd]
  simp only [getQuarterRange, goTimeDate, secPerDay]
  norm_num
  rw [daysFromCivil_oct]
  ring

/-- Q4 runs from October 1st to December 31st, 23:59:59 (the exclusive
end month 13 normalizes to January of the following year). -/
theorem getQuarterRange_eq4 (y : Int) :
    getQuarterRange y 4 = (goTimeDate y 10 1 0 0 0, goTimeDate y 12 (daysInMonth y 12) 23 59 59) := by
  have hd : daysInMonth y 12 = 31 := by norm_num [daysInMonth]
  rw [hd]
  simp only [getQuarterRange, goTimeDate, secPerDay]
  norm_num
  rw [daysFromCivil_jan]
  ring

/-- C8: month `m` is assigned to quarter `((m-1)/3)+1`, grouping months
as {Jan-Mar, Apr-Jun, Jul-Sep, Oct-Dec}, and the last-quarter window of a
reference instant with year `y` and month `m` starts on the 1st day of
the previous quarter — wrapping to Q4 of the prior year when `m` is
January through March — and ends on the last day of that quarter at
23:59:59. -/
theorem lastQuarter_window (y m : Int) (h1 : 1 ≤ m) (h2 : m ≤ 12) :
    (getQuarter m = if m ≤ 3 then 1 else if m ≤ 6 then 2 else if m ≤ 9 then 3 else 4)
    ∧ calculateLastQuarterWindow y m =
        (if m ≤ 3 then
          (goTimeDate (y - 1) 10 1 0 0 0,
           goTimeDate (y - 1) 12 (daysInMonth (y - 1) 12) 23 59 59)
        else if m ≤ 6 then
          (goTimeDate y 1 1 0 0 0, goTimeDate y 3 (daysInMonth y 3) 23 59 59)
        else if m ≤ 9 then
          (goTimeDate y 4 1 0 0 0, goTimeDate y 6 (daysInMonth y 6) 23 59 59)
        else
          (goTimeDate y 7 1 0 0 0, goTimeDate y 9 (daysInMonth y 9) 23 59 59)) := by
  interval_cases m
  · refine ⟨by decide, ?_⟩
    have hq : getQuarter 1 = 1 := by decide
    simp only [calculateLastQuarterWindow, hq]
    norm_num
    exact getQuarterRange_eq4 (y - 1)
  · refine ⟨by decide, ?_⟩
    have hq : getQuarter 2 = 1 := by decide
    simp only [calculateLastQuarterWindow, hq]
    norm_num
    exact getQuarterRange_eq4 (y - 1)
  · refine ⟨by decide, ?_⟩
    have hq : getQuarter 3 = 1 := by decide
    simp only [calculateLastQuarterWindow, hq]
    norm_num
    exact getQuarterRange_eq4 (y - 1)
  · refine ⟨by decide, ?_⟩
    have hq : getQuarter 4 = 2 := by decide
    simp only [calculateLastQuarterWindow, hq]
    norm_num
    exact getQuarterRange_eq1 y
  · refine ⟨by decide, ?_⟩
    have hq : getQuarter 5 = 2 := by decide
    simp only [calculateLastQuarterWindow, hq]
    norm_num
    exact getQuarterRange_eq1 y
  · refine ⟨by decide, ?_⟩
    have hq : getQuarter 6 = 2 := by decide
    simp only [calculateLastQuarterWindow, hq]
    norm_num
    exact getQuarterRange_eq1 y
  · refine ⟨by decide, ?_⟩
    have hq : getQuarter 7 = 3 := by decide
    simp only [calculateLastQuarterWindow, hq]
    norm_num
    exact getQuarterRange_eq2 y
  · refine ⟨by decide, ?_⟩
    have hq : getQuarter 8 = 3 := by decide
    simp only [calculateLastQuarterWindow, hq]
    norm_num
    exact getQuarterRange_eq2 y
  · refine ⟨by decide, ?_⟩
    have hq : getQuarter 9 = 3 := by decide
    simp only [calculateLastQuarterWindow, hq]
    norm_num
    exact getQuarterRange_eq2 y
  · refine ⟨by decide, ?_⟩
    have hq : getQuarter 10 = 4 := by decide
    simp only [calculateLastQuarterWindow, hq]
    norm_num
    exact getQuarterRange_eq3 y
  · refine ⟨by decide, ?_⟩
    have hq : getQuarter 11 = 4 := by decide
    simp only [calculateLastQuarterWindow, hq]
    norm_num
    exact getQuarterRange_eq3 y
  · refine ⟨by decide, ?_⟩
    have hq : getQuarter 12 = 4 := by decide
    simp only [calculateLastQuarterWindow, hq]
    norm_num
    exact getQuarterRange_eq3 y

/-- Witness for C8, at the year boundary: in January 2025 the last
quarter is Q4 of 2024, running October 1st 2024 to December 31st 2024,
23:59:59. -/
theorem lastQuarter_window_witness :
    calculateLastQuarterWindow 2025 1 =
      (goTimeDate 2024 10 1 0 0 0, goTimeDate 2024 12 (daysInMonth 2024 12) 23 59 59) := by
  have h := (lastQuarter_window 2025 1 (by decide) (by decide)).2
  simpa using h
